import Mathlib

/-!
Shallow embedding of the postfix stack-language interpreter from
`src/main.rs`: the `Value` model, the tokenizer/block parser, and the
recursive evaluator, together with proofs of the spec's claims about them.

Machine integers (`i32`) are modelled as `Int` together with the explicit
range `[-2^31, 2^31 - 1]`; Rust's arithmetic panics (overflow under the
default debug profile, division by zero) and the other fatal panics
(`Option::unwrap` on an empty stack, `as_num`/`to_block` on the wrong
variant, the `expect` on an undefined name) are modelled as `Except`
errors, one constructor per distinguishable panic site.  The evaluator is
genuinely partial (`{ b b b if } /b def b b b if` diverges), so `eval`
takes a fuel parameter; running out of fuel is the separate `Err.outOfFuel`
result, never identified with any of the program's own fatal errors.
-/

namespace StackLang

/-- The four-variant value model of `enum Value` in the source:
`Num(i32)`, `Op(&str)`, `Sym(&str)`, `Block(Vec<Value>)`. -/
inductive Value where
  | Num : Int → Value
  | Op : String → Value
  | Sym : String → Value
  | Block : List Value → Value

/-- The fatal (panic) outcomes of the interpreter, plus `outOfFuel`,
which is an artifact of the fuelled embedding only. -/
inductive Err where
  | stackUnderflow : Err
  | typeMismatch : Err
  | undefinedOp : String → Err
  | divByZero : Err
  | overflow : Err
  | outOfFuel : Err
deriving DecidableEq

/-- `struct Vm`: one stack and one variable environment.  The stack's top
is the head of the list; the `HashMap` environment is modelled as an
association list where insertion conses in front, so lookup (first match
wins) observes exactly the map's insert-overwrites behaviour. -/
structure Vm where
  stack : List Value
  vars : List (String × Value)

/-- The `i32` range: `i32::MIN ≤ n` and `n ≤ i32::MAX`. -/
def inI32 (n : Int) : Prop := -2147483648 ≤ n ∧ n ≤ 2147483647

instance (n : Int) : Decidable (inI32 n) :=
  inferInstanceAs (Decidable (_ ∧ _))

/-- `stack.pop().unwrap().as_num()`: popping an empty stack is the
underflow panic, `as_num` on a non-`Num` is the type-mismatch panic. -/
def popNum (stack : List Value) : Except Err (Int × List Value) :=
  match stack with
  | [] => .error .stackUnderflow
  | .Num n :: rest => .ok (n, rest)
  | _ :: _ => .error .typeMismatch

/-- `stack.pop().unwrap().to_block()`, with the same two panic modes. -/
def popBlock (stack : List Value) : Except Err (List Value × List Value) :=
  match stack with
  | [] => .error .stackUnderflow
  | .Block ts :: rest => .ok (ts, rest)
  | _ :: _ => .error .typeMismatch

/-- `stack.pop().unwrap()` with no shape requirement. -/
def popAny (stack : List Value) : Except Err (Value × List Value) :=
  match stack with
  | [] => .error .stackUnderflow
  | v :: rest => .ok (v, rest)

/-- `vm.vars.get(name)` on the association-list environment. -/
def lookupVar (name : String) : List (String × Value) → Option Value
  | [] => none
  | (k, v) :: rest => if k = name then some v else lookupVar name rest

/-- `fn add`: pop the right operand first, then the left, push the sum.
`lhs + rhs` on `i32` panics on overflow (debug profile). -/
def add (stack : List Value) : Except Err (List Value) :=
  match popNum stack with
  | .error e => .error e
  | .ok (rhs, s1) =>
    match popNum s1 with
    | .error e => .error e
    | .ok (lhs, s2) =>
      if inI32 (lhs + rhs) then .ok (.Num (lhs + rhs) :: s2) else .error .overflow

/-- `fn sub`. -/
def sub (stack : List Value) : Except Err (List Value) :=
  match popNum stack with
  | .error e => .error e
  | .ok (rhs, s1) =>
    match popNum s1 with
    | .error e => .error e
    | .ok (lhs, s2) =>
      if inI32 (lhs - rhs) then .ok (.Num (lhs - rhs) :: s2) else .error .overflow

/-- `fn mul`. -/
def mul (stack : List Value) : Except Err (List Value) :=
  match popNum stack with
  | .error e => .error e
  | .ok (rhs, s1) =>
    match popNum s1 with
    | .error e => .error e
    | .ok (lhs, s2) =>
      if inI32 (lhs * rhs) then .ok (.Num (lhs * rhs) :: s2) else .error .overflow

/-- `fn div`: `lhs / rhs` on `i32` truncates toward zero (`Int.tdiv`),
panics on a zero divisor, and panics on overflow (only `MIN / -1`, which
the range test captures). -/
def div (stack : List Value) : Except Err (List Value) :=
  match popNum stack with
  | .error e => .error e
  | .ok (rhs, s1) =>
    match popNum s1 with
    | .error e => .error e
    | .ok (lhs, s2) =>
      if rhs = 0 then .error .divByZero
      else if inI32 (Int.tdiv lhs rhs) then .ok (.Num (Int.tdiv lhs rhs) :: s2)
      else .error .overflow

/-- Run a stack-to-stack operation on the machine, keeping the
environment: the shape of `add(&mut vm.stack)` and friends. -/
def liftStack (f : List Value → Except Err (List Value)) (vm : Vm) : Except Err Vm :=
  match f vm.stack with
  | .error e => .error e
  | .ok s => .ok ⟨s, vm.vars⟩

/-- Modelled from the spec: `op_def` is called from `eval` in the source
but its definition is absent from the provided sources.  Per the spec it
pops the top of the stack as the value to bind and the next value as the
`Sym` carrying the name (a non-`Sym` in the name slot is the fatal type
mismatch), then inserts or overwrites the environment entry, pushing
nothing. -/
def op_def (vm : Vm) : Except Err Vm :=
  match popAny vm.stack with
  | .error e => .error e
  | .ok (value, s1) =>
    match popAny s1 with
    | .error e => .error e
    | .ok (.Sym name, s2) => .ok ⟨s2, (name, value) :: vm.vars⟩
    | .ok (_, _) => .error .typeMismatch

/-- Evaluate a list of tokens in sequence against the live machine,
stopping at the first fatal error: the `for code in ... { eval(code, ...) }`
loops of `op_if`.  The single-token evaluator is a parameter so that the
fuelled `eval` below can pass itself at a smaller fuel. -/
def evalSeq (ev : Value → Vm → Except Err Vm) : List Value → Vm → Except Err Vm
  | [], vm => .ok vm
  | c :: cs, vm =>
    match ev c vm with
    | .error e => .error e
    | .ok vm1 => evalSeq ev cs vm1

/-- `fn op_if`: pop the false branch, the true branch, and the condition
(all three must be blocks), evaluate the condition's tokens against the
live machine, pop one number as the truth value, and evaluate the chosen
branch's tokens.  The source forwards each token to `eval`, so the token
evaluator is taken as a parameter here. -/
def op_if (ev : Value → Vm → Except Err Vm) (vm : Vm) : Except Err Vm :=
  match popBlock vm.stack with
  | .error e => .error e
  | .ok (false_branch, s1) =>
    match popBlock s1 with
    | .error e => .error e
    | .ok (true_branch, s2) =>
      match popBlock s2 with
      | .error e => .error e
      | .ok (cond, s3) =>
        match evalSeq ev cond ⟨s3, vm.vars⟩ with
        | .error e => .error e
        | .ok vm1 =>
          match popNum vm1.stack with
          | .error e => .error e
          | .ok (cond_result, s4) =>
            if cond_result ≠ 0 then evalSeq ev true_branch ⟨s4, vm1.vars⟩
            else evalSeq ev false_branch ⟨s4, vm1.vars⟩

/-- `fn eval`: an `Op` dispatches on its name — the four arithmetic
builtins, `if`, `def`, and otherwise an environment lookup whose failure
is the fatal undefined-operation error; every non-`Op` value is pushed
onto the stack.  The fuel only decreases when `if` starts evaluating
block contents, which is the sole source of unbounded recursion. -/
def eval : Nat → Value → Vm → Except Err Vm
  | 0, _, _ => .error .outOfFuel
  | fuel + 1, code, vm =>
    match code with
    | .Op op =>
      if op = "+" then liftStack add vm
      else if op = "-" then liftStack sub vm
      else if op = "*" then liftStack mul vm
      else if op = "/" then liftStack div vm
      else if op = "if" then op_if (fun c m => eval fuel c m) vm
      else if op = "def" then op_def vm
      else
        match lookupVar op vm.vars with
        | some v => .ok ⟨v :: vm.stack, vm.vars⟩
        | none => .error (.undefinedOp op)
    | c => .ok ⟨c :: vm.stack, vm.vars⟩

/-- Base-10 digit-string value: `some` of the number exactly when the
character list is nonempty and all ASCII digits. -/
def digitsVal (cs : List Char) : Option Nat :=
  if cs ≠ [] ∧ cs.all Char.isDigit then
    some (cs.foldl (fun a c => a * 10 + (c.toNat - 48)) 0)
  else none

/-- The mathematical value of a word shaped like a signed base-10 integer
literal (an optional single `+` or `-` sign followed by one or more
digits), `none` for any other word. -/
def numLitVal (s : String) : Option Int :=
  match s.data with
  | [] => none
  | c :: cs =>
    if c = '-' then (digitsVal cs).map (fun n => -(n : Int))
    else if c = '+' then (digitsVal cs).map (fun n => (n : Int))
    else (digitsVal (c :: cs)).map (fun n => (n : Int))

/-- `word.parse::<i32>()`: a signed base-10 literal whose value fits in
`i32`; a literal out of range fails just like a non-numeric word. -/
def parseI32 (s : String) : Option Int :=
  match numLitVal s with
  | some v => if inI32 v then some v else none
  | none => none

/-- Top-level word classification from `fn parse`: a parsable `i32` is a
`Num`; otherwise a word starting with `/` is a `Sym` carrying the word
with the prefix stripped (`&word[1..]`); otherwise an `Op` carrying the
word verbatim. -/
def classify (word : String) : Value :=
  match parseI32 word with
  | some num => .Num num
  | none =>
    if word.data.head? = some '/' then .Sym (String.mk word.data.tail)
    else .Op word

/-- `line.split(" ")`: split on single space characters, keeping empty
words between consecutive separators and at the ends. -/
def splitChars (cs : List Char) : List (List Char) :=
  match cs with
  | [] => [[]]
  | c :: rest =>
    if c = ' ' then [] :: splitChars rest
    else
      match splitChars rest with
      | [] => [[c]]
      | w :: ws => (c :: w) :: ws

/-- The word list of one input line. -/
def splitWords (s : String) : List String :=
  (splitChars s.data).map (fun cs => String.mk cs)

/-- The loop body of `fn parse_block`, in accumulator-free form (each
step conses its token onto the recursively parsed tail): an empty word
stops without consuming it, `{` recurses into a nested block, `}` closes
the current block returning the rest of the words, any other word is a
`Num` if it parses as an `i32` and an `Op` otherwise — never a `Sym`.
Running out of input returns what was accumulated with no remainder.
The fuel argument only makes the recursion structural; each recursive
call consumes at least one word, so `input.length` fuel (as passed by
`parse_block`) always suffices, and the fuel-exhausted fallback returns
the input unconsumed so that the remainder is always a suffix. -/
def parseBlockAux : Nat → List String → List Value × List String
  | 0, input => ([], input)
  | _ + 1, [] => ([], [])
  | fuel + 1, word :: rest =>
    if word = "" then ([], word :: rest)
    else if word = "\x7b" then
      let (ts1, rest1) := parseBlockAux fuel rest
      let (ts2, r) := parseBlockAux fuel rest1
      (Value.Block ts1 :: ts2, r)
    else if word = "\x7d" then ([], rest)
    else
      let tok :=
        match parseI32 word with
        | some n => Value.Num n
        | none => Value.Op word
      let (ts, r) := parseBlockAux fuel rest
      (tok :: ts, r)

/-- `fn parse_block`: the accumulated tokens wrapped as a `Block`, plus
the unconsumed remainder of the word list. -/
def parse_block (input : List String) : Value × List String :=
  let (ts, r) := parseBlockAux input.length input
  (Value.Block ts, r)

/-- The top-level word loop of `fn parse`: an empty word stops, `{`
parses a block and pushes it as data, every other word is classified and
immediately evaluated against the live machine.  As with `parseBlockAux`
the word fuel is only for structurality; `parse` passes the word count,
which always suffices. -/
def parseLoop : Nat → Nat → List String → Vm → Except Err Vm
  | 0, _, _, vm => .ok vm
  | _ + 1, _, [], vm => .ok vm
  | wordFuel + 1, evalFuel, word :: rest, vm =>
    if word = "" then .ok vm
    else if word = "\x7b" then
      let (value, rest1) := parse_block rest
      parseLoop wordFuel evalFuel rest1 ⟨value :: vm.stack, vm.vars⟩
    else
      match eval evalFuel (classify word) vm with
      | .error e => .error e
      | .ok vm1 => parseLoop wordFuel evalFuel rest vm1

/-- `fn parse`: drive a fresh machine through one line and return its
final stack in bottom-to-top order (the order the `Vec` is printed in). -/
def parse (evalFuel : Nat) (line : String) : Except Err (List Value) :=
  let words := splitWords line
  match parseLoop words.length evalFuel words ⟨[], []⟩ with
  | .error e => .error e
  | .ok vm => .ok vm.stack.reverse

/-- Evaluate an already-classified token sequence from an empty machine,
returning the final stack bottom-to-top: the effect of a top-level line
whose words classify to exactly these tokens. -/
def runTokens (fuel : Nat) (codes : List Value) : Except Err (List Value) :=
  match evalSeq (fun c m => eval fuel c m) codes ⟨[], []⟩ with
  | .error e => .error e
  | .ok vm => .ok vm.stack.reverse

/-- Discriminators for the value variants. -/
def isNum : Value → Bool
  | .Num _ => true
  | _ => false

def isBlock : Value → Bool
  | .Block _ => true
  | _ => false

def isSym : Value → Bool
  | .Sym _ => true
  | _ => false

mutual
/-- No `Sym` occurs anywhere in the value, nested blocks included. -/
def noSym : Value → Bool
  | .Sym _ => false
  | .Block ts => noSymL ts
  | .Num _ => true
  | .Op _ => true

/-- No `Sym` occurs anywhere in the list of values. -/
def noSymL : List Value → Bool
  | [] => true
  | v :: vs => noSym v && noSymL vs
end

/-! ## Sanity: the source's own test module, replayed -/

theorem test_group : parse 1 "1 2 + { 3 4 }" = .ok [.Num 3, .Block [.Num 3, .Num 4]] := rfl

theorem test_if_true : parse 2 "{ 1 1 + } { 100 } { -100 } if" = .ok [.Num 100] := rfl

theorem test_if_false : parse 2 "{ 1 -1 + } { 100 } { -100 } if" = .ok [.Num (-100)] := rfl

/-! ## Claims -/

/-- C1 (counterexample): the claim promises `Number(a+b)` for all integers
`a`, `b`, but at `a = 2147483647`, `b = 1` the `i32` addition overflows
and evaluation aborts instead of producing `Number(2147483648)`. -/
theorem arith_claim_counterexample :
    runTokens 1 [.Num 2147483647, .Num 1, .Op "+"] = .error .overflow ∧
    runTokens 1 [.Num 2147483647, .Num 1, .Op "+"] ≠ .ok [.Num (2147483647 + 1)] :=
  ⟨rfl, fun h => Except.noConfusion h⟩

/-- C1 (amended): for `i32`-representable `a`, `b` with `b ≠ 0`,
evaluating the classified token sequence `Num a, Num b, Op o` from an
empty machine leaves exactly `[Num (a ∘ b)]`, provided the exact result
is itself `i32`-representable; division truncates toward zero. -/
theorem arith_tokens_spec (a b : Int) (fuel : Nat)
    (ha : inI32 a) (hb : inI32 b) (hb0 : b ≠ 0) :
    (inI32 (a + b) → runTokens (fuel + 1) [.Num a, .Num b, .Op "+"] = .ok [.Num (a + b)]) ∧
    (inI32 (a - b) → runTokens (fuel + 1) [.Num a, .Num b, .Op "-"] = .ok [.Num (a - b)]) ∧
    (inI32 (a * b) → runTokens (fuel + 1) [.Num a, .Num b, .Op "*"] = .ok [.Num (a * b)]) ∧
    (inI32 (Int.tdiv a b) →
      runTokens (fuel + 1) [.Num a, .Num b, .Op "/"] = .ok [.Num (Int.tdiv a b)]) := by
  refine ⟨fun h => ?_, fun h => ?_, fun h => ?_, fun h => ?_⟩ <;>
    simp [runTokens, evalSeq, eval, liftStack, add, sub, mul, div, popNum, h, hb0]

/-- C1 (witness): the amended theorem applied at `a = 7`, `b = 2`. -/
theorem arith_tokens_spec_witness :
    runTokens 1 [.Num 7, .Num 2, .Op "+"] = .ok [.Num 9] ∧
    runTokens 1 [.Num 7, .Num 2, .Op "-"] = .ok [.Num 5] ∧
    runTokens 1 [.Num 7, .Num 2, .Op "*"] = .ok [.Num 14] ∧
    runTokens 1 [.Num 7, .Num 2, .Op "/"] = .ok [.Num 3] := by
  have h := arith_tokens_spec 7 2 0 (by decide) (by decide) (by decide)
  exact ⟨h.1 (by decide), h.2.1 (by decide), h.2.2.1 (by decide), h.2.2.2 (by decide)⟩

/-- C3 (counterexample): after `5 /x def` the top of the stack is the
symbol, so `def` binds the symbol `x` as the value and finds `Number(5)`
in the name slot — a fatal type mismatch, not a binding of `x` to `5`. -/
theorem def_claim_counterexample :
    runTokens 1 [.Num 5, .Sym "x", .Op "def", .Op "x"] = .error .typeMismatch ∧
    runTokens 1 [.Num 5, .Sym "x", .Op "def", .Op "x"] ≠ .ok [.Num 5] :=
  ⟨rfl, fun h => Except.noConfusion h⟩

/-- C3 (amended): `def` pops the top of the stack as the value to bind
and the next value as the `Sym` carrying the (already prefix-stripped)
name, inserts/overwrites that environment entry and pushes nothing;
consequently after `/x 5 def` evaluating `x` pushes `Number(5)`, and
after a subsequent `/x 7 def` evaluating `x` pushes `Number(7)`. -/
theorem def_spec (fuel : Nat) (v : Value) (name : String) (rest : List Value)
    (env : List (String × Value)) :
    eval (fuel + 1) (.Op "def") ⟨v :: .Sym name :: rest, env⟩ = .ok ⟨rest, (name, v) :: env⟩ ∧
    runTokens (fuel + 1) [.Sym "x", .Num 5, .Op "def", .Op "x"] = .ok [.Num 5] ∧
    runTokens (fuel + 1) [.Sym "x", .Num 5, .Op "def", .Sym "x", .Num 7, .Op "def", .Op "x"]
      = .ok [.Num 7] :=
  ⟨rfl, rfl, rfl⟩

/-- C4: parsing the line `{ 3 4 }` from an empty machine pushes the one
value `Block([Num 3, Num 4])`, with neither `3` nor `4` pushed or
evaluated individually. -/
theorem group_parse_spec (evalFuel : Nat) :
    parse evalFuel "{ 3 4 }" = .ok [.Block [.Num 3, .Num 4]] := rfl

/-- C8 (counterexample): the top-level word `/` starts with the symbol
prefix, so the line `5 0 /` classifies it as `Sym("")` and pushes it as
data — the line evaluates without any fault at all, leaving
`[Num 5, Num 0, Sym ""]`. -/
theorem div_zero_claim_counterexample :
    parse 1 "5 0 /" = .ok [.Num 5, .Num 0, .Sym ""] ∧
    parse 1 "5 0 /" ≠ .error .divByZero :=
  ⟨rfl, fun h => Except.noConfusion h⟩

/-- C2: `if` pops the false branch, then the true branch, then the
condition, all three required to be blocks (a non-block in any of the
three positions is the fatal type mismatch); the condition's tokens run
against the live stack, one number is popped as the truth value, and the
result is exactly that of evaluating the chosen branch's tokens — the
branch not taken contributes nothing. -/
theorem if_spec (fuel : Nat) (fb tb cb rest : List Value) (env : List (String × Value)) :
    (∀ vm1 n s4,
      evalSeq (fun c m => eval fuel c m) cb ⟨rest, env⟩ = .ok vm1 →
      vm1.stack = .Num n :: s4 →
      eval (fuel + 1) (.Op "if") ⟨.Block fb :: .Block tb :: .Block cb :: rest, env⟩
        = evalSeq (fun c m => eval fuel c m) (if n ≠ 0 then tb else fb) ⟨s4, vm1.vars⟩) ∧
    (∀ v s, isBlock v = false →
      eval (fuel + 1) (.Op "if") ⟨v :: s, env⟩ = .error .typeMismatch) ∧
    (∀ v s, isBlock v = false →
      eval (fuel + 1) (.Op "if") ⟨.Block fb :: v :: s, env⟩ = .error .typeMismatch) ∧
    (∀ v s, isBlock v = false →
      eval (fuel + 1) (.Op "if") ⟨.Block fb :: .Block tb :: v :: s, env⟩
        = .error .typeMismatch) := by
  refine ⟨?_, ?_, ?_, ?_⟩
  · intro vm1 n s4 hc hs
    by_cases hn : n = 0 <;>
      simp [eval, op_if, popBlock, popNum, hc, hs, hn]
  · intro v s hv
    cases v <;> simp_all [eval, op_if, popBlock, isBlock]
  · intro v s hv
    cases v <;> simp_all [eval, op_if, popBlock, isBlock]
  · intro v s hv
    cases v <;> simp_all [eval, op_if, popBlock, isBlock]

/-- C2 (witness): the spec's own true-branch example, with the condition
block `{ 1 1 + }` evaluating to `2`, so the true branch `{ 100 }` runs. -/
theorem if_spec_witness :
    evalSeq (fun c m => eval 1 c m) [.Num 1, .Num 1, .Op "+"] ⟨[], []⟩
      = .ok ⟨[.Num 2], []⟩ ∧
    eval 2 (.Op "if")
      ⟨[.Block [.Num (-100)], .Block [.Num 100], .Block [.Num 1, .Num 1, .Op "+"]], []⟩
      = evalSeq (fun c m => eval 1 c m)
          (if (2 : Int) ≠ 0 then [.Num 100] else [.Num (-100)]) ⟨[], []⟩ :=
  ⟨rfl, (if_spec 1 [.Num (-100)] [.Num 100] [.Num 1, .Num 1, .Op "+"] [] []).1
      ⟨[.Num 2], []⟩ 2 [] rfl rfl⟩

/-- C6: a non-builtin operator name is looked up in the environment — a
hit pushes a copy of the bound value leaving the environment unchanged,
a miss is the fatal undefined-operation error. -/
theorem lookup_spec (fuel : Nat) (name : String) (vm : Vm)
    (h1 : name ≠ "+") (h2 : name ≠ "-") (h3 : name ≠ "*") (h4 : name ≠ "/")
    (h5 : name ≠ "if") (h6 : name ≠ "def") :
    (∀ v, lookupVar name vm.vars = some v →
      eval (fuel + 1) (.Op name) vm = .ok ⟨v :: vm.stack, vm.vars⟩) ∧
    (lookupVar name vm.vars = none →
      eval (fuel + 1) (.Op name) vm = .error (.undefinedOp name)) := by
  constructor
  · intro v hv
    simp [eval, h1, h2, h3, h4, h5, h6, hv]
  · intro hv
    simp [eval, h1, h2, h3, h4, h5, h6, hv]

/-- C6 (witness): `foo` bound to `Number(3)` is pushed; unbound `bar` is
the fatal undefined-operation error. -/
theorem lookup_spec_witness :
    eval 1 (.Op "foo") ⟨[], [("foo", .Num 3)]⟩ = .ok ⟨[.Num 3], [("foo", .Num 3)]⟩ ∧
    eval 1 (.Op "bar") ⟨[], []⟩ = .error (.undefinedOp "bar") := by
  have ha := lookup_spec 0 "foo" ⟨[], [("foo", .Num 3)]⟩
    (by decide) (by decide) (by decide) (by decide) (by decide) (by decide)
  have hb := lookup_spec 0 "bar" ⟨[], []⟩
    (by decide) (by decide) (by decide) (by decide) (by decide) (by decide)
  exact ⟨ha.1 (.Num 3) rfl, hb.2 rfl⟩

/-- C7: every consuming operation faults on an empty or too-short stack
with the underflow error, and on a value of the wrong variant with the
type-mismatch error — including the number popped as `if`'s condition
result — and evaluation stops there. -/
theorem pop_errors_spec (fuel : Nat) (env : List (String × Value)) :
    (∀ o, o ∈ ["+", "-", "*", "/"] →
      eval (fuel + 1) (.Op o) ⟨[], env⟩ = .error .stackUnderflow) ∧
    (∀ o, o ∈ ["+", "-", "*", "/"] → ∀ n : Int,
      eval (fuel + 1) (.Op o) ⟨[.Num n], env⟩ = .error .stackUnderflow) ∧
    (∀ o, o ∈ ["+", "-", "*", "/"] → ∀ v s, isNum v = false →
      eval (fuel + 1) (.Op o) ⟨v :: s, env⟩ = .error .typeMismatch) ∧
    (∀ o, o ∈ ["+", "-", "*", "/"] → ∀ (n : Int) v s, isNum v = false →
      eval (fuel + 1) (.Op o) ⟨.Num n :: v :: s, env⟩ = .error .typeMismatch) ∧
    (eval (fuel + 1) (.Op "if") ⟨[], env⟩ = .error .stackUnderflow) ∧
    (∀ fb, eval (fuel + 1) (.Op "if") ⟨[.Block fb], env⟩ = .error .stackUnderflow) ∧
    (∀ fb tb,
      eval (fuel + 1) (.Op "if") ⟨[.Block fb, .Block tb], env⟩ = .error .stackUnderflow) ∧
    (∀ v s, isBlock v = false →
      eval (fuel + 1) (.Op "if") ⟨v :: s, env⟩ = .error .typeMismatch) ∧
    (∀ fb v s, isBlock v = false →
      eval (fuel + 1) (.Op "if") ⟨.Block fb :: v :: s, env⟩ = .error .typeMismatch) ∧
    (∀ fb tb v s, isBlock v = false →
      eval (fuel + 1) (.Op "if") ⟨.Block fb :: .Block tb :: v :: s, env⟩
        = .error .typeMismatch) ∧
    (∀ fb tb cb rest vm1,
      evalSeq (fun c m => eval fuel c m) cb ⟨rest, env⟩ = .ok vm1 → vm1.stack = [] →
      eval (fuel + 1) (.Op "if") ⟨.Block fb :: .Block tb :: .Block cb :: rest, env⟩
        = .error .stackUnderflow) ∧
    (∀ fb tb cb rest vm1 v s,
      evalSeq (fun c m => eval fuel c m) cb ⟨rest, env⟩ = .ok vm1 → vm1.stack = v :: s →
      isNum v = false →
      eval (fuel + 1) (.Op "if") ⟨.Block fb :: .Block tb :: .Block cb :: rest, env⟩
        = .error .typeMismatch) ∧
    (eval (fuel + 1) (.Op "def") ⟨[], env⟩ = .error .stackUnderflow) ∧
    (∀ v, eval (fuel + 1) (.Op "def") ⟨[v], env⟩ = .error .stackUnderflow) ∧
    (∀ v w s, isSym w = false →
      eval (fuel + 1) (.Op "def") ⟨v :: w :: s, env⟩ = .error .typeMismatch) := by
  refine ⟨?_, ?_, ?_, ?_, ?_, ?_, ?_, ?_, ?_, ?_, ?_, ?_, ?_, ?_, ?_⟩
  · intro o ho
    fin_cases ho <;> simp [eval, liftStack, add, sub, mul, div, popNum]
  · intro o ho n
    fin_cases ho <;> simp [eval, liftStack, add, sub, mul, div, popNum]
  · intro o ho v s hv
    fin_cases ho <;> cases v <;>
      simp_all [eval, liftStack, add, sub, mul, div, popNum, isNum]
  · intro o ho n v s hv
    fin_cases ho <;> cases v <;>
      simp_all [eval, liftStack, add, sub, mul, div, popNum, isNum]
  · simp [eval, op_if, popBlock]
  · intro fb
    simp [eval, op_if, popBlock]
  · intro fb tb
    simp [eval, op_if, popBlock]
  · intro v s hv
    cases v <;> simp_all [eval, op_if, popBlock, isBlock]
  · intro fb v s hv
    cases v <;> simp_all [eval, op_if, popBlock, isBlock]
  · intro fb tb v s hv
    cases v <;> simp_all [eval, op_if, popBlock, isBlock]
  · intro fb tb cb rest vm1 hc hs
    simp [eval, op_if, popBlock, popNum, hc, hs]
  · intro fb tb cb rest vm1 v s hc hs hv
    cases v <;> simp_all [eval, op_if, popBlock, popNum, isNum]
  · simp [eval, op_def, popAny]
  · intro v
    simp [eval, op_def, popAny]
  · intro v w s hw
    cases w <;> simp_all [eval, op_def, popAny, isSym]

/-- C7 (witness): one concrete fault of each family through the proved
theorem — `+` on an empty stack, `*` on a symbol operand, `if` whose
condition block leaves nothing to pop, and `def` with a number in the
name slot. -/
theorem pop_errors_spec_witness :
    eval 1 (.Op "+") ⟨[], []⟩ = .error .stackUnderflow ∧
    eval 1 (.Op "*") ⟨[.Sym "x", .Num 1], []⟩ = .error .typeMismatch ∧
    eval 2 (.Op "if") ⟨[.Block [], .Block [], .Block []], []⟩ = .error .stackUnderflow ∧
    eval 1 (.Op "def") ⟨[.Num 1, .Num 2], []⟩ = .error .typeMismatch := by
  obtain ⟨p1, p2, p3, p4, p5, p6, p7, p8, p9, p10, p11, p12, p13, p14, p15⟩ :=
    pop_errors_spec 0 []
  obtain ⟨q1, q2, q3, q4, q5, q6, q7, q8, q9, q10, q11, q12, q13, q14, q15⟩ :=
    pop_errors_spec 1 []
  exact ⟨p1 "+" (by decide), p3 "*" (by decide) (.Sym "x") [.Num 1] rfl,
    q11 [] [] [] [] ⟨[], []⟩ rfl rfl, p15 (.Num 1) (.Num 2) [] rfl⟩

/-- C8 (amended): evaluating the `Operator("/")` token (the form `/`
takes inside blocks) with divisor `0` is fatal for every `a`, with no
recovery; e.g. the full line `{ 5 0 / } { 1 } { 2 } if` aborts with the
division fault. -/
theorem div_zero_spec (a : Int) (fuel : Nat) :
    runTokens (fuel + 1) [.Num a, .Num 0, .Op "/"] = .error .divByZero ∧
    parse (fuel + 2) "{ 5 0 / } { 1 } { 2 } if" = .error .divByZero :=
  ⟨rfl, rfl⟩

/-! ## Helper lemmas for the parser claims -/

/-- Two strings with different head characters differ. -/
theorem ne_of_data_head (w t : String) (h : w.data.head? ≠ t.data.head?) : w ≠ t :=
  fun e => h (by rw [e])

/-- The block parser never produces a `Sym`, at any fuel. -/
theorem parseBlockAux_noSym (fuel : Nat) :
    ∀ input, noSymL (parseBlockAux fuel input).1 = true := by
  induction fuel with
  | zero =>
    intro input
    simp [parseBlockAux, noSymL]
  | succ f ih =>
    intro input
    cases input with
    | nil => simp [parseBlockAux, noSymL]
    | cons w rest =>
      by_cases h1 : w = ""
      · simp [parseBlockAux, h1, noSymL]
      · by_cases h2 : w = "\x7b"
        · rcases hA : parseBlockAux f rest with ⟨ts1, rest1⟩
          rcases hB : parseBlockAux f rest1 with ⟨ts2, r⟩
          have ha := ih rest
          rw [hA] at ha
          have hb := ih rest1
          rw [hB] at hb
          simp [parseBlockAux, h1, h2, hA, hB, noSymL, noSym, ha, hb]
        · by_cases h3 : w = "\x7d"
          · simp [parseBlockAux, h1, h2, h3, noSymL]
          · rcases hA : parseBlockAux f rest with ⟨ts, r⟩
            have ha := ih rest
            rw [hA] at ha
            cases hc : parseI32 w <;>
              simp [parseBlockAux, h1, h2, h3, hA, hc, noSymL, noSym, ha]

/-- Block parsing stops, with everything accumulated and nothing consumed
past the stopping point, when the words run out or an empty word is
reached before any closing `}` (`tail` is the stopping point: either the
empty remainder or a remainder led by the empty word). -/
theorem parseBlockAux_exhausts (fuel : Nat) :
    ∀ pre tail : List String, pre.length ≤ fuel → "\x7d" ∉ pre → "" ∉ pre →
      (tail = [] ∨ tail.head? = some "") →
      ∃ ts, parseBlockAux fuel (pre ++ tail) = (ts, tail) := by
  induction fuel with
  | zero =>
    intro pre tail hlen _ _ htail
    have hpre : pre = [] := List.length_eq_zero.mp (Nat.le_zero.mp hlen)
    subst hpre
    exact ⟨[], by simp [parseBlockAux]⟩
  | succ f ih =>
    intro pre tail hlen hclose hempty htail
    cases pre with
    | nil =>
      rcases htail with rfl | hhd
      · exact ⟨[], by simp [parseBlockAux]⟩
      · cases tail with
        | nil => simp at hhd
        | cons t post =>
          simp at hhd
          subst hhd
          exact ⟨[], by simp [parseBlockAux]⟩
    | cons w pre' =>
      have hw0 : w ≠ "" := fun e => hempty (by rw [← e]; exact List.mem_cons_self _ _)
      have hw3 : w ≠ "\x7d" := fun e => hclose (by rw [← e]; exact List.mem_cons_self _ _)
      have hlen' : pre'.length ≤ f := Nat.le_of_succ_le_succ hlen
      have hclose' : "\x7d" ∉ pre' := fun h => hclose (List.mem_cons_of_mem _ h)
      have hempty' : "" ∉ pre' := fun h => hempty (List.mem_cons_of_mem _ h)
      have htl : parseBlockAux f tail = ([], tail) := by
        rcases htail with rfl | hhd
        · cases f <;> simp [parseBlockAux]
        · cases tail with
          | nil => simp at hhd
          | cons t post =>
            simp at hhd
            subst hhd
            cases f <;> simp [parseBlockAux]
      obtain ⟨ts1, hA⟩ := ih pre' tail hlen' hclose' hempty' htail
      by_cases h2 : w = "\x7b"
      · refine ⟨[Value.Block ts1], ?_⟩
        simp [parseBlockAux, hw0, h2, hA, htl]
      · cases hc : parseI32 w with
        | none =>
          refine ⟨Value.Op w :: ts1, ?_⟩
          simp [parseBlockAux, hw0, h2, hw3, hc, hA]
        | some n =>
          refine ⟨Value.Num n :: ts1, ?_⟩
          simp [parseBlockAux, hw0, h2, hw3, hc, hA]

/-- C5: block parsing only ever appends `Num` and `Op` tokens (and nested
blocks of the same shape) — never a `Sym`, at any depth, for any input;
in particular a word starting with `/` becomes the operator carrying the
word verbatim, prefix retained. -/
theorem block_never_sym :
    (∀ fuel input, noSymL (parseBlockAux fuel input).1 = true) ∧
    (∀ input, noSym (parse_block input).1 = true) ∧
    (∀ fuel (w : String) rest, w.data.head? = some '/' →
      ∃ ts r, parseBlockAux (fuel + 1) (w :: rest) = (.Op w :: ts, r)) := by
  refine ⟨parseBlockAux_noSym, ?_, ?_⟩
  · intro input
    rcases hA : parseBlockAux input.length input with ⟨ts, r⟩
    have h := parseBlockAux_noSym input.length input
    rw [hA] at h
    simp [parse_block, hA, noSym, h]
  · intro fuel w rest hd
    have hw0 : w ≠ "" := ne_of_data_head _ _ (by rw [hd]; decide)
    have hw1 : w ≠ "\x7b" := ne_of_data_head _ _ (by rw [hd]; decide)
    have hw3 : w ≠ "\x7d" := ne_of_data_head _ _ (by rw [hd]; decide)
    have hcs : ∃ cs, w.data = '/' :: cs := by
      cases hh : w.data with
      | nil => rw [hh] at hd; simp at hd
      | cons c cs =>
        rw [hh] at hd
        simp at hd
        exact ⟨cs, by rw [hd]⟩
    obtain ⟨cs, hh⟩ := hcs
    have hnum : numLitVal w = none := by
      simp +decide [numLitVal, hh, digitsVal]
    have hp : parseI32 w = none := by simp [parseI32, hnum]
    rcases hA : parseBlockAux fuel rest with ⟨ts0, r0⟩
    refine ⟨ts0, r0, ?_⟩
    simp [parseBlockAux, hw0, hw1, hw3, hp, hA]

/-- C5 (witness): `/x` inside a block becomes `Op("/x")`. -/
theorem block_never_sym_witness :
    ∃ ts r, parseBlockAux 1 ["/x"] = (.Op "/x" :: ts, r) :=
  block_never_sym.2.2 0 "/x" [] rfl

/-- C9: when the input runs out (or the empty word is reached) before a
matching `}`, block parsing does not fail: it returns the tokens
accumulated so far as a block, with the remainder exactly the stopping
point — empty at end of input, or the words from the empty word on. -/
theorem unterminated_block_spec (input post : List String)
    (h1 : "\x7d" ∉ input) (h2 : "" ∉ input) :
    (∃ ts, parse_block input = (.Block ts, [])) ∧
    (∃ ts, parse_block (input ++ "" :: post) = (.Block ts, "" :: post)) := by
  constructor
  · obtain ⟨ts, h⟩ :=
      parseBlockAux_exhausts input.length input [] (Nat.le_refl _) h1 h2 (Or.inl rfl)
    rw [List.append_nil] at h
    exact ⟨ts, by simp [parse_block, h]⟩
  · obtain ⟨ts, h⟩ :=
      parseBlockAux_exhausts (input ++ "" :: post).length input ("" :: post)
        (by simp) h1 h2 (Or.inr rfl)
    refine ⟨ts, ?_⟩
    simp only [parse_block]
    rw [h]

/-- C9 (witness): the unmatched opener `{ 5` (as the words after a
top-level `{`) yields a block with the nested partial block, remainder
empty; with a trailing empty word the remainder starts at that word. -/
theorem unterminated_block_spec_witness :
    (∃ ts, parse_block ["\x7b", "5"] = (.Block ts, [])) ∧
    (∃ ts, parse_block (["\x7b", "5"] ++ "" :: []) = (.Block ts, "" :: [])) :=
  unterminated_block_spec ["\x7b", "5"] [] (by decide) (by decide)

/-- C10: a word shaped like a signed decimal literal whose value is
outside the `i32` range is not classified as a `Num` — it falls through
to `Op` both at top level and inside blocks, and at top level an unbound
such word hits the fatal undefined-operation error. -/
theorem out_of_range_literal_spec (w : String) (v : Int)
    (hv : numLitVal w = some v) (hr : ¬ inI32 v) :
    parseI32 w = none ∧
    classify w = .Op w ∧
    (∀ fuel rest, ∃ ts r, parseBlockAux (fuel + 1) (w :: rest) = (.Op w :: ts, r)) ∧
    (∀ fuel stack, eval (fuel + 1) (.Op w) ⟨stack, []⟩ = .error (.undefinedOp w)) := by
  have hp : parseI32 w = none := by simp [parseI32, hv, hr]
  have hcons : ∃ c cs, w.data = c :: cs := by
    cases hh : w.data with
    | nil => rw [numLitVal, hh] at hv; simp at hv
    | cons c cs => exact ⟨c, cs, rfl⟩
  obtain ⟨c, cs, hh⟩ := hcons
  have hc : c = '-' ∨ c = '+' ∨ c.isDigit = true := by
    by_contra hcon
    push_neg at hcon
    obtain ⟨n1, n2, n3⟩ := hcon
    rw [numLitVal, hh] at hv
    simp only [ne_eq, Bool.not_eq_true] at n3
    simp [n1, n2, digitsVal, n3] at hv
  have hslash : w.data.head? ≠ some '/' := by
    rw [hh]
    intro e
    have e' : c = '/' := by injection e
    rcases hc with rfl | rfl | hd
    · exact absurd e' (by decide)
    · exact absurd e' (by decide)
    · rw [e'] at hd
      exact absurd hd (by decide)
  have hw0 : w ≠ "" := by
    intro e
    rw [e] at hh
    exact List.noConfusion hh
  have hw1 : w ≠ "\x7b" := by
    intro e
    rw [e] at hh
    have h1 : '{' = c := by injection hh
    rcases hc with rfl | rfl | hd
    · exact absurd h1 (by decide)
    · exact absurd h1 (by decide)
    · rw [← h1] at hd
      exact absurd hd (by decide)
  have hw3 : w ≠ "\x7d" := by
    intro e
    rw [e] at hh
    have h1 : '}' = c := by injection hh
    rcases hc with rfl | rfl | hd
    · exact absurd h1 (by decide)
    · exact absurd h1 (by decide)
    · rw [← h1] at hd
      exact absurd hd (by decide)
  have hbuiltin : ∀ t : String, numLitVal t = none → w ≠ t := by
    intro t htn e
    rw [e, htn] at hv
    exact Option.noConfusion hv
  have b1 : w ≠ "+" := hbuiltin _ rfl
  have b2 : w ≠ "-" := hbuiltin _ rfl
  have b3 : w ≠ "*" := hbuiltin _ rfl
  have b4 : w ≠ "/" := hbuiltin _ rfl
  have b5 : w ≠ "if" := hbuiltin _ rfl
  have b6 : w ≠ "def" := hbuiltin _ rfl
  refine ⟨hp, ?_, ?_, ?_⟩
  · simp [classify, hp, hslash]
  · intro fuel rest
    rcases hA : parseBlockAux fuel rest with ⟨ts0, r0⟩
    refine ⟨ts0, r0, ?_⟩
    simp [parseBlockAux, hw0, hw1, hw3, hp, hA]
  · intro fuel stack
    simp [eval, b1, b2, b3, b4, b5, b6, lookupVar]

/-- C10 (witness): `2147483648 = 2^31` is one past `i32::MAX`. -/
theorem out_of_range_literal_spec_witness :
    parseI32 "2147483648" = none ∧
    classify "2147483648" = .Op "2147483648" ∧
    (∃ ts r, parseBlockAux 1 ["2147483648"] = (.Op "2147483648" :: ts, r)) ∧
    eval 1 (.Op "2147483648") ⟨[], []⟩ = .error (.undefinedOp "2147483648") := by
  have h := out_of_range_literal_spec "2147483648" 2147483648 rfl (by decide)
  exact ⟨h.1, h.2.1, h.2.2.1 0 [], h.2.2.2 0 []⟩

end StackLang
